import Mathlib

/-!
# Verification of the zetro schema compiler

A shallow embedding, in Lean 4, of the parts of the `zetro` code generator
(a Rust program) that its specification makes checkable claims about:

* the JSON tree and the typed IR (`Json`, `FieldKind`, `ZetroField`,
  `ZetroStruct`, `ZetroEnum`, `ZetroRoute`, `ZetroSchema`);
* the field / struct parsers (`ZetroField.fromValue`, `ZetroStruct.fromValue`
  from `src/common/schema/fields.rs` and `structs.rs`), with Rust panics
  (`todo!`, `expect`) made explicit through the `PResult` type;
* the reference checker (`ZetroSchema.checkSchema` from
  `src/common/schema/mod.rs`);
* route-name tokenisation (`encryptRouteName` from `src/common/schema/routes.rs`;
  HMAC-SHA1 and URL-safe unpadded base64 are implemented here from their
  standards, which the `rust-crypto` and `base64` crates implement);
* the behaviour of the server dispatcher emitted by
  `src/generators/rust/plugins/warp/mod.rs` (`dispatch`);
* the response-parsing expression emitted by the typescript class client
  (`responseBodyExpr` from
  `src/generators/typescript/plugins/class_client/mod.rs`);
* the exit behaviour of the driver (`mainRun` from `src/main.rs`).

Machine integers are modelled as `Nat` with explicit reductions `% 2 ^ 32`
(resp. `% 256`) where overflow matters.
-/

/-! ## JSON trees

Models `serde_json::Value`.  Objects are association lists in the map's
iteration order; as in `serde_json::Map`, keys are distinct.  Numbers are
modelled as integers, which covers every number the schema layer inspects
(the parsers only ever call `as_str`, `as_bool`, `as_object`, `is_object`). -/

inductive Json where
  | null
  | bool (b : Bool)
  | num (n : Int)
  | str (s : String)
  | arr (elems : List Json)
  | obj (members : List (String × Json))
  deriving Repr

namespace Json

/-- `serde_json::Value::is_object`. -/
def isObject : Json → Bool
  | .obj _ => true
  | _ => false

/-- `serde_json::Value::as_str`. -/
def asStr : Json → Option String
  | .str s => some s
  | _ => none

/-- `serde_json::Value::as_bool`. -/
def asBool : Json → Option Bool
  | .bool b => some b
  | _ => none

/-- `serde_json::Value::as_object`. -/
def asObject : Json → Option (List (String × Json))
  | .obj kvs => some kvs
  | _ => none

/-- `serde_json::Value::is_array`. -/
def isArray : Json → Bool
  | .arr _ => true
  | _ => false

/-- `serde_json::Value::as_array`. -/
def asArray : Json → Option (List Json)
  | .arr xs => some xs
  | _ => none

/-- `serde_json::Value::is_string`. -/
def isString : Json → Bool
  | .str _ => true
  | _ => false

end Json

/-! ## Schema errors (`src/common/schema/errors.rs`) -/

inductive Offender where
  | field (parent name : String)
  | struc (name : String)
  | enu (name : String)
  | route (name : String)
  | file (name : String)
  deriving Repr, DecidableEq

inductive ErrorKind where
  | invalidReference (name : String)
  | unrecognizedField (name : String)
  | missingField (name : String)
  | badFieldValue (name expected : String)
  deriving Repr, DecidableEq

structure SchemaError where
  kind : ErrorKind
  offender : Offender
  deriving Repr, DecidableEq

/-- The outcome of a Rust computation that can return `Ok`, return a
`SchemaError` through `Err`/`?`, or abort the process (`todo!`,
`Option::expect`).  The panic payload is the panic message. -/
inductive PResult (α : Type) where
  | ok (value : α)
  | err (e : SchemaError)
  | panic (msg : String)
  deriving Repr, DecidableEq

/-! ## The typed IR (`fields.rs`, `structs.rs`) -/

mutual

inductive FieldKind where
  | int8
  | uint8
  | int16
  | uint16
  | int32
  | uint32
  | int64
  | uint64
  | float32
  | float64
  | boolean
  | stringValue
  | structValue (name : String)
  | enumValue (name : String)
  | nestedObject (s : ZetroStruct)
  deriving Repr

inductive ZetroField where
  | mk (description : Option String) (name : String) (kind : FieldKind)
       (isNullable isMultiple isRecursive : Bool)
  deriving Repr

inductive ZetroStruct where
  | mk (name description : String) (isNullable isMultiple : Bool)
       (fields : List ZetroField)
  deriving Repr

end

namespace ZetroField

def description : ZetroField → Option String
  | .mk d _ _ _ _ _ => d

def name : ZetroField → String
  | .mk _ n _ _ _ _ => n

def kind : ZetroField → FieldKind
  | .mk _ _ k _ _ _ => k

def isNullable : ZetroField → Bool
  | .mk _ _ _ n _ _ => n

def isMultiple : ZetroField → Bool
  | .mk _ _ _ _ m _ => m

def isRecursive : ZetroField → Bool
  | .mk _ _ _ _ _ r => r

end ZetroField

namespace ZetroStruct

def name : ZetroStruct → String
  | .mk n _ _ _ _ => n

def description : ZetroStruct → String
  | .mk _ d _ _ _ => d

def isNullable : ZetroStruct → Bool
  | .mk _ _ n _ _ => n

def isMultiple : ZetroStruct → Bool
  | .mk _ _ _ m _ => m

def fields : ZetroStruct → List ZetroField
  | .mk _ _ _ _ fs => fs

end ZetroStruct

/-- `generate_nested_struct_name` (structs.rs). -/
def generateNestedStructName (structName fieldName : String) : String :=
  structName ++ "_" ++ fieldName

/-! ## Byte-lexicographic ordering of keys

Rust's `Vec<&String>::sort()` orders strings by their UTF-8 bytes.  UTF-8
preserves the ordering of code points, so byte order coincides with the
lexicographic order on code points, which we implement directly. -/

/-- Byte-lexicographic `≤` on strings, as lists of code points. -/
def bytesLe (a b : List Char) : Bool :=
  match a, b with
  | [], _ => true
  | _ :: _, [] => false
  | x :: xs, y :: ys =>
    if x.toNat < y.toNat then true
    else if y.toNat < x.toNat then false
    else bytesLe xs ys

/-- Byte-lexicographic `≤` on strings. -/
def strLe (a b : String) : Bool := bytesLe a.data b.data

theorem bytesLe_total (a b : List Char) : bytesLe a b = true ∨ bytesLe b a = true := by
  induction a generalizing b with
  | nil => left; rfl
  | cons x xs ih =>
    cases b with
    | nil => right; rfl
    | cons y ys =>
      by_cases hxy : x.toNat < y.toNat
      · left; simp [bytesLe, hxy]
      · by_cases hyx : y.toNat < x.toNat
        · right; simp [bytesLe, hyx]
        · rcases ih ys with h | h
          · left; simp [bytesLe, hxy, hyx, h]
          · right; simp [bytesLe, hxy, hyx, h]

theorem bytesLe_trans {a b c : List Char} (hab : bytesLe a b = true)
    (hbc : bytesLe b c = true) : bytesLe a c = true := by
  induction a generalizing b c with
  | nil => rfl
  | cons x xs ih =>
    cases b with
    | nil => simp [bytesLe] at hab
    | cons y ys =>
      cases c with
      | nil => simp [bytesLe] at hbc
      | cons z zs =>
        simp only [bytesLe] at hab hbc ⊢
        split at hab
        · rename_i hxy
          split at hbc
          · rename_i hyz
            simp [show x.toNat < z.toNat from lt_trans hxy hyz]
          · split at hbc
            · simp at hbc
            · rename_i h1 h2
              have hyz : y.toNat = z.toNat := by omega
              simp [show x.toNat < z.toNat from hyz ▸ hxy]
        · split at hab
          · simp at hab
          · rename_i h1 h2
            have hxy : x.toNat = y.toNat := by omega
            split at hbc
            · rename_i hyz
              simp [show x.toNat < z.toNat from hxy ▸ hyz]
            · split at hbc
              · simp at hbc
              · rename_i h3 h4
                have hyz : y.toNat = z.toNat := by omega
                have hxz : x.toNat = z.toNat := hxy.trans hyz
                simp [hxz, ih hab hbc]

/-- The comparator used to sort field names, as a relation on key/value
pairs. -/
def keyLe (a b : String × Json) : Prop := strLe a.1 b.1 = true

instance : DecidableRel keyLe := fun a b => by
  unfold keyLe; infer_instance

instance : IsTotal (String × Json) keyLe :=
  ⟨fun a b => bytesLe_total a.1.data b.1.data⟩

instance : IsTrans (String × Json) keyLe :=
  ⟨fun _ _ _ hab hbc => bytesLe_trans hab hbc⟩

/-! ## The struct parser's key scan (`ZetroStruct::from_value`, loop over keys)

`structScan` mirrors the `for (key, val) in value` loop of
`ZetroStruct::from_value`, threading the loop's mutable locals through an
accumulator. -/

structure StructHeader where
  description : Option String
  multiple : Bool
  nullable : Bool
  fields : Option (List (String × Json))
  deriving Repr

/-- Initial values of the loop's locals. -/
def StructHeader.init : StructHeader :=
  ⟨none, false, false, none⟩

def structScan (structName : String) (hdr : StructHeader) :
    List (String × Json) → Except SchemaError StructHeader
  | [] => .ok hdr
  | (key, val) :: rest =>
    if key = "description" then
      match val.asStr with
      | some v => structScan structName { hdr with description := some v } rest
      | none => .error ⟨.badFieldValue "description" "a string",
          .field structName "description"⟩
    else if key = "multiple" then
      match val.asBool with
      | some v => structScan structName { hdr with multiple := v } rest
      | none => .error ⟨.badFieldValue "multiple" "a boolean",
          .field structName "multiple"⟩
    else if key = "nullable" then
      match val.asBool with
      | some v => structScan structName { hdr with nullable := v } rest
      | none => .error ⟨.badFieldValue "nullable" "a boolean",
          .field structName "nullable"⟩
    else if key = "fields" then
      match val.asObject with
      | some v => structScan structName { hdr with fields := some v } rest
      | none => .error ⟨.badFieldValue "fields" "an object",
          .field structName "fields"⟩
    else
      .error ⟨.unrecognizedField key, .struc structName⟩

/-- Any `fields` object a successful scan reports either was already in the
accumulator or is strictly smaller than the scanned member list. -/
theorem structScan_fields_size {structName : String} {hdr hdr' : StructHeader}
    {kvs : List (String × Json)} {fkvs : List (String × Json)}
    (hscan : structScan structName hdr kvs = .ok hdr')
    (hf : hdr'.fields = some fkvs) :
    hdr.fields = some fkvs ∨ sizeOf fkvs < sizeOf kvs := by
  induction kvs generalizing hdr with
  | nil =>
    simp only [structScan] at hscan
    cases hscan
    exact .inl hf
  | cons kv rest ih =>
    obtain ⟨key, val⟩ := kv
    simp only [structScan] at hscan
    split at hscan
    · cases hval : val.asStr <;> rw [hval] at hscan
      · cases hscan
      · rcases ih hscan with h | h
        · exact .inl h
        · right; simp only [List.cons.sizeOf_spec]; omega
    · split at hscan
      · cases hval : val.asBool <;> rw [hval] at hscan
        · cases hscan
        · rcases ih hscan with h | h
          · exact .inl h
          · right; simp only [List.cons.sizeOf_spec]; omega
      · split at hscan
        · cases hval : val.asBool <;> rw [hval] at hscan
          · cases hscan
          · rcases ih hscan with h | h
            · exact .inl h
            · right; simp only [List.cons.sizeOf_spec]; omega
        · split at hscan
          · cases hval : val.asObject <;> rw [hval] at hscan
            · cases hscan
            · rename_i v
              rcases ih hscan with h | h
              · have hv : v = fkvs := by simpa using h
                subst hv
                right
                cases val <;> simp [Json.asObject] at hval
                subst hval
                simp only [List.cons.sizeOf_spec, Prod.mk.sizeOf_spec,
                  Json.obj.sizeOf_spec]
                omega
              · right; simp only [List.cons.sizeOf_spec]; omega
          · cases hscan

/-- Permutations preserve `sizeOf` (a list's size is one plus the sum of the
sizes of its elements, plus its length). -/
theorem perm_sizeOf_eq {α : Type} [SizeOf α] {l₁ l₂ : List α}
    (h : l₁.Perm l₂) : sizeOf l₁ = sizeOf l₂ := by
  induction h with
  | nil => rfl
  | cons x _ ih => simp only [List.cons.sizeOf_spec, ih]
  | swap x y l => simp only [List.cons.sizeOf_spec]; omega
  | trans _ _ ih₁ ih₂ => exact ih₁.trans ih₂

/-! ## Field parsing (`ZetroField::from_value`, fields.rs)

`parseDtype` mirrors the `if dtype == ... else if ...` chain, returning the
field kind together with the `is_recursive` flag it computes; `Option.expect`
on a missing `~name` becomes an explicit `panic` with the Rust message, and
`todo!()` on a non-string non-object value becomes a `panic` with Rust's
`todo!` message. -/

def parseDtype (structName fieldName dtype : String) (extra : Option String)
    (isNullable isMultiple : Bool) : PResult (FieldKind × Bool) :=
  if dtype = "string" then .ok (.stringValue, false)
  else if dtype = "i8" then .ok (.int8, false)
  else if dtype = "u8" then .ok (.uint8, false)
  else if dtype = "i16" then .ok (.int16, false)
  else if dtype = "u16" then .ok (.uint16, false)
  else if dtype = "i32" then .ok (.int32, false)
  else if dtype = "u32" then .ok (.uint32, false)
  else if dtype = "i64" then .ok (.int64, false)
  else if dtype = "u64" then .ok (.uint64, false)
  else if dtype = "f32" then .ok (.float32, false)
  else if dtype = "f64" then .ok (.float64, false)
  else if dtype = "bool" then .ok (.boolean, false)
  else if dtype = "enum" then
    match extra with
    | none => .panic "enum declarations must contain enum name"
    | some enumName => .ok (.enumValue enumName, false)
  else if dtype = "struct" then
    match extra with
    | none => .panic "struct declarations must contain struct name"
    | some refName =>
      let isRecursive := refName = structName
      if isRecursive ∧ ¬isNullable ∧ ¬isMultiple then
        .err ⟨.badFieldValue fieldName
            "nullable and/or multiple to avoid an infinite loop.",
          .field structName fieldName⟩
      else
        .ok (.structValue refName, isRecursive)
  else
    .err ⟨.badFieldValue fieldName "string or object",
      .field structName fieldName⟩

/-- Split a character list at every non-overlapping occurrence of `sep`,
left to right — the behaviour of Rust's `str::split` with a string pattern
(UTF-8 is self-synchronising, so byte-level and character-level splitting
on an ASCII separator agree).  The fuel is the list length; each step
consumes at least one character. -/
def splitListAux (sep : List Char) : Nat → List Char → List (List Char)
  | _, [] => [[]]
  | 0, l => [l]
  | fuel + 1, c :: rest =>
    if sep.isPrefixOf (c :: rest) then
      [] :: splitListAux sep fuel (List.drop (sep.length - 1) rest)
    else
      match splitListAux sep fuel rest with
      | [] => [[c]]
      | s :: ss => (c :: s) :: ss

def splitList (sep l : List Char) : List (List Char) :=
  splitListAux sep l.length l

/-- The string branch of `ZetroField::from_value`: strip `?`, strip `[]`,
split off the `"; "` description, split off the `~extra` part, then classify
the dtype. -/
def parseFieldString (structName fieldName value : String) : PResult ZetroField :=
  let chars := value.data
  let isNullable := ['?'].isPrefixOf chars
  let chars₁ := if isNullable then chars.drop 1 else chars
  let isMultiple := ['[', ']'].isPrefixOf chars₁
  let chars₂ := if isMultiple then chars₁.drop 2 else chars₁
  let parts := splitList [';', ' '] chars₂
  let dtypeAndExtra := parts.headD []
  let description := (parts[1]?).map String.mk
  let dtypeParts := splitList ['~'] dtypeAndExtra
  let dtype := String.mk (dtypeParts.headD [])
  let extra := (dtypeParts[1]?).map String.mk
  match parseDtype structName fieldName dtype extra isNullable isMultiple with
  | .panic m => .panic m
  | .err e => .err e
  | .ok (kind, isRecursive) =>
    .ok (.mk description fieldName kind isNullable isMultiple isRecursive)

mutual

/-- `ZetroField::from_value` (fields.rs): objects declare a nested anonymous
struct, strings use the field-string grammar, anything else hits `todo!()`. -/
def ZetroField.fromValue (structName fieldName : String) (v : Json) :
    PResult ZetroField :=
  match v with
  | .obj kvs =>
    match ZetroStruct.fromValue (generateNestedStructName structName fieldName)
        (.obj kvs) with
    | .panic m => .panic m
    | .err e => .err e
    | .ok nested =>
      .ok (.mk none fieldName (.nestedObject nested) nested.isNullable
        nested.isMultiple false)
  | .str s => parseFieldString structName fieldName s
  | _ => .panic "not yet implemented"
termination_by (sizeOf v, 1)
decreasing_by
  exact Prod.Lex.right _ (by omega)

/-- `ZetroStruct::from_value` (structs.rs): coerce to an object, scan the
keys, require `description` and `fields`, sort the field names
byte-lexicographically, and parse each field in that order. -/
def ZetroStruct.fromValue (structName : String) (v : Json) :
    PResult ZetroStruct :=
  match v with
  | .obj kvs =>
    match hscan : structScan structName .init kvs with
    | .error e => .err e
    | .ok hdr =>
      match hdr.description with
      | none => .err ⟨.missingField "description", .struc structName⟩
      | some description =>
        match hflds : hdr.fields with
        | none => .err ⟨.missingField "fields", .field structName "fields"⟩
        | some schemaFields =>
          match parseFields structName
              (List.insertionSort keyLe schemaFields) with
          | .panic m => .panic m
          | .err e => .err e
          | .ok fields =>
            .ok (.mk structName description hdr.nullable hdr.multiple fields)
  | _ =>
    .err ⟨.badFieldValue structName "an object", .struc structName⟩
termination_by (sizeOf v, 0)
decreasing_by
  -- the sorted field list is strictly smaller than the scanned object
  apply Prod.Lex.left
  rename_i kvs
  have hperm := perm_sizeOf_eq (List.perm_insertionSort keyLe schemaFields)
  have hsize : sizeOf schemaFields < sizeOf kvs := by
    rcases structScan_fields_size hscan hflds with h | h
    · simp [StructHeader.init] at h
    · exact h
  simp only [Json.obj.sizeOf_spec]
  omega

/-- The `for field_name in fields_sorted` loop of `ZetroStruct::from_value`:
parse each field in order, propagating the first failure. -/
def parseFields (structName : String) (pairs : List (String × Json)) :
    PResult (List ZetroField) :=
  match pairs with
  | [] => .ok []
  | (fieldName, fv) :: rest =>
    match ZetroField.fromValue structName fieldName fv with
    | .panic m => .panic m
    | .err e => .err e
    | .ok f =>
      match parseFields structName rest with
      | .panic m => .panic m
      | .err e => .err e
      | .ok fs => .ok (f :: fs)
termination_by (sizeOf pairs, 1)
decreasing_by
  · apply Prod.Lex.left
    simp only [List.cons.sizeOf_spec, Prod.mk.sizeOf_spec]
    omega
  · apply Prod.Lex.left
    simp only [List.cons.sizeOf_spec]
    omega

end

/-! ## Enums, routes and the schema (`enums.rs`, `routes.rs`, `mod.rs`) -/

structure ZetroEnum where
  name : String
  variants : List String
  deriving Repr, DecidableEq

inductive RouteKind where
  | query
  | mutation
  deriving Repr, DecidableEq

/-- `RouteKind::to_method_code` (routes.rs). -/
def RouteKind.toMethodCode : RouteKind → Nat
  | .query => 1
  | .mutation => 2

structure ZetroRoute where
  kind : RouteKind
  name : String
  description : String
  requestBody : ZetroField
  responseBody : ZetroField
  deriving Repr

structure ZetroSchema where
  structs : List ZetroStruct
  enums : List ZetroEnum
  queries : List ZetroRoute
  mutations : List ZetroRoute
  deriving Repr

/-! ## Reference checking (`ZetroSchema::check_schema`, mod.rs)

The `ReferenceManifest` hash maps of `check_schema` are keyed by name, so a
lookup succeeding is exactly membership of the name in the corresponding
name list. -/

mutual

/-- `ZetroSchema::check_field` (mod.rs). -/
def ZetroSchema.checkField (structManifest enumManifest : List String)
    (field : ZetroField) : Except SchemaError Unit :=
  match hkind : field.kind with
  | .structValue structName =>
    if structManifest.contains structName then .ok ()
    else .error ⟨.invalidReference structName, .field structName field.name⟩
  | .enumValue enumName =>
    if enumManifest.contains enumName then .ok ()
    else .error ⟨.invalidReference enumName, .field enumName field.name⟩
  | .nestedObject obj =>
    ZetroSchema.checkFields structManifest enumManifest obj.fields
  | _ => .ok ()
termination_by (sizeOf field, 0)
decreasing_by
  apply Prod.Lex.left
  cases field with
  | mk d n k b1 b2 b3 =>
    simp only [ZetroField.kind] at hkind
    subst hkind
    cases obj with
    | mk a b c dd fs =>
      simp only [ZetroField.mk.sizeOf_spec, FieldKind.nestedObject.sizeOf_spec,
        ZetroStruct.mk.sizeOf_spec, ZetroStruct.fields]
      omega

/-- `ZetroSchema::check_struct` (mod.rs): check every field of a struct,
propagating the first error. -/
def ZetroSchema.checkFields (structManifest enumManifest : List String) :
    List ZetroField → Except SchemaError Unit
  | [] => .ok ()
  | field :: rest =>
    match ZetroSchema.checkField structManifest enumManifest field with
    | .error e => .error e
    | .ok () => ZetroSchema.checkFields structManifest enumManifest rest
termination_by fields => (sizeOf fields, 1)
decreasing_by
  · apply Prod.Lex.left
    simp only [List.cons.sizeOf_spec]
    omega
  · apply Prod.Lex.left
    simp only [List.cons.sizeOf_spec]
    omega

end

/-- The `for _struct in &self.structs` loop of `check_schema`. -/
def ZetroSchema.checkStructList (structManifest enumManifest : List String) :
    List ZetroStruct → Except SchemaError Unit
  | [] => .ok ()
  | st :: rest =>
    match ZetroSchema.checkFields structManifest enumManifest st.fields with
    | .error e => .error e
    | .ok () => ZetroSchema.checkStructList structManifest enumManifest rest

/-- The route loops of `check_schema`: request body, then response body. -/
def ZetroSchema.checkRouteList (structManifest enumManifest : List String) :
    List ZetroRoute → Except SchemaError Unit
  | [] => .ok ()
  | route :: rest =>
    match ZetroSchema.checkField structManifest enumManifest route.requestBody with
    | .error e => .error e
    | .ok () =>
      match ZetroSchema.checkField structManifest enumManifest route.responseBody with
      | .error e => .error e
      | .ok () => ZetroSchema.checkRouteList structManifest enumManifest rest

/-- `ZetroSchema::check_schema` (mod.rs): build the two name manifests, then
visit every struct, every query and every mutation. -/
def ZetroSchema.checkSchema (s : ZetroSchema) : Except SchemaError Unit :=
  let structManifest := s.structs.map ZetroStruct.name
  let enumManifest := s.enums.map ZetroEnum.name
  match ZetroSchema.checkStructList structManifest enumManifest s.structs with
  | .error e => .error e
  | .ok () =>
    match ZetroSchema.checkRouteList structManifest enumManifest s.queries with
    | .error e => .error e
    | .ok () =>
      ZetroSchema.checkRouteList structManifest enumManifest s.mutations

/-! ## The references a field (transitively) contains

Spec-side description of what the validator visits: every struct-kind and
enum-kind reference in a field, descending through nested anonymous
objects.  A reference is `(true, n)` for a struct reference to `n` and
`(false, n)` for an enum reference to `n`. -/

mutual

def fieldRefs (field : ZetroField) : List (Bool × String) :=
  match hkind : field.kind with
  | .structValue structName => [(true, structName)]
  | .enumValue enumName => [(false, enumName)]
  | .nestedObject obj => fieldListRefs obj.fields
  | _ => []
termination_by (sizeOf field, 0)
decreasing_by
  apply Prod.Lex.left
  cases field with
  | mk d n k b1 b2 b3 =>
    simp only [ZetroField.kind] at hkind
    subst hkind
    cases obj with
    | mk a b c dd fs =>
      simp only [ZetroField.mk.sizeOf_spec, FieldKind.nestedObject.sizeOf_spec,
        ZetroStruct.mk.sizeOf_spec, ZetroStruct.fields]
      omega

def fieldListRefs : List ZetroField → List (Bool × String)
  | [] => []
  | field :: rest => fieldRefs field ++ fieldListRefs rest
termination_by fields => (sizeOf fields, 1)
decreasing_by
  · apply Prod.Lex.left
    simp only [List.cons.sizeOf_spec]
    omega
  · apply Prod.Lex.left
    simp only [List.cons.sizeOf_spec]
    omega

end

/-- Every reference the validator visits: each top-level struct's fields
(recursively), then each query's and each mutation's request and response
bodies. -/
def ZetroSchema.schemaRefs (s : ZetroSchema) : List (Bool × String) :=
  (s.structs.flatMap fun st => fieldListRefs st.fields) ++
    (s.queries.flatMap fun r => fieldRefs r.requestBody ++ fieldRefs r.responseBody) ++
    (s.mutations.flatMap fun r => fieldRefs r.requestBody ++ fieldRefs r.responseBody)

/-- A reference resolves against the two (separate) name tables. -/
def refResolves (structManifest enumManifest : List String)
    (r : Bool × String) : Prop :=
  if r.1 then r.2 ∈ structManifest else r.2 ∈ enumManifest

instance (sm em : List String) (r : Bool × String) :
    Decidable (refResolves sm em r) := by
  unfold refResolves; infer_instance

/-! ### The checker succeeds exactly when every visited reference resolves -/

theorem checkFields_cons (sm em : List String) (f : ZetroField)
    (rest : List ZetroField) :
    ZetroSchema.checkFields sm em (f :: rest) =
      match ZetroSchema.checkField sm em f with
      | .error e => .error e
      | .ok () => ZetroSchema.checkFields sm em rest := by
  simp [ZetroSchema.checkFields]

theorem checkFields_ok_iff_aux (sm em : List String) (l : List ZetroField)
    (ih : ∀ f ∈ l, (ZetroSchema.checkField sm em f = .ok () ↔
      ∀ r ∈ fieldRefs f, refResolves sm em r)) :
    ZetroSchema.checkFields sm em l = .ok () ↔
      ∀ r ∈ fieldListRefs l, refResolves sm em r := by
  induction l with
  | nil => simp [ZetroSchema.checkFields, fieldListRefs]
  | cons f rest ihl =>
    rw [checkFields_cons]
    have ihf := ih f (by simp)
    have ihrest := ihl (fun g hg => ih g (by simp [hg]))
    cases hcf : ZetroSchema.checkField sm em f with
    | error e =>
      simp only [fieldListRefs]
      constructor
      · intro h; cases h
      · intro h
        exfalso
        have : ZetroSchema.checkField sm em f = .ok () :=
          ihf.mpr (fun r hr => h r (by simp [hr]))
        rw [hcf] at this; cases this
    | ok u =>
      cases u
      simp only [fieldListRefs]
      rw [ihrest]
      constructor
      · intro h r hr
        rcases List.mem_append.mp hr with hr | hr
        · exact (ihf.mp hcf) r hr
        · exact h r hr
      · intro h r hr
        exact h r (List.mem_append.mpr (.inr hr))

theorem checkField_ok_iff (sm em : List String) (f : ZetroField) :
    ZetroSchema.checkField sm em f = .ok () ↔
      ∀ r ∈ fieldRefs f, refResolves sm em r := by
  suffices H : ∀ n (f : ZetroField), sizeOf f < n →
      (ZetroSchema.checkField sm em f = .ok () ↔
        ∀ r ∈ fieldRefs f, refResolves sm em r) from
    H (sizeOf f + 1) f (by omega)
  intro n
  induction n with
  | zero => intro f h; omega
  | succ n ihn =>
    intro f hf
    cases f with
    | mk d nm k b1 b2 b3 =>
      cases k with
      | structValue sn =>
        simp [ZetroSchema.checkField, fieldRefs, ZetroField.kind,
          refResolves]
      | enumValue en =>
        simp [ZetroSchema.checkField, fieldRefs, ZetroField.kind,
          refResolves]
      | nestedObject obj =>
        have hobj : ZetroSchema.checkField sm em
            (.mk d nm (.nestedObject obj) b1 b2 b3) =
            ZetroSchema.checkFields sm em obj.fields := by
          simp [ZetroSchema.checkField, ZetroField.kind]
        have hrefs : fieldRefs (.mk d nm (.nestedObject obj) b1 b2 b3) =
            fieldListRefs obj.fields := by
          simp [fieldRefs, ZetroField.kind]
        rw [hobj, hrefs]
        apply checkFields_ok_iff_aux
        intro g hg
        apply ihn
        have h1 : sizeOf g < sizeOf obj.fields := List.sizeOf_lt_of_mem hg
        cases obj with
        | mk a b c dd fs =>
          simp only [ZetroStruct.fields] at h1
          simp only [ZetroField.mk.sizeOf_spec,
            FieldKind.nestedObject.sizeOf_spec,
            ZetroStruct.mk.sizeOf_spec] at hf ⊢
          omega
      | int8 => simp [ZetroSchema.checkField, fieldRefs, ZetroField.kind]
      | uint8 => simp [ZetroSchema.checkField, fieldRefs, ZetroField.kind]
      | int16 => simp [ZetroSchema.checkField, fieldRefs, ZetroField.kind]
      | uint16 => simp [ZetroSchema.checkField, fieldRefs, ZetroField.kind]
      | int32 => simp [ZetroSchema.checkField, fieldRefs, ZetroField.kind]
      | uint32 => simp [ZetroSchema.checkField, fieldRefs, ZetroField.kind]
      | int64 => simp [ZetroSchema.checkField, fieldRefs, ZetroField.kind]
      | uint64 => simp [ZetroSchema.checkField, fieldRefs, ZetroField.kind]
      | float32 => simp [ZetroSchema.checkField, fieldRefs, ZetroField.kind]
      | float64 => simp [ZetroSchema.checkField, fieldRefs, ZetroField.kind]
      | boolean => simp [ZetroSchema.checkField, fieldRefs, ZetroField.kind]
      | stringValue => simp [ZetroSchema.checkField, fieldRefs, ZetroField.kind]

theorem checkFields_ok_iff (sm em : List String) (l : List ZetroField) :
    ZetroSchema.checkFields sm em l = .ok () ↔
      ∀ r ∈ fieldListRefs l, refResolves sm em r :=
  checkFields_ok_iff_aux sm em l (fun f _ => checkField_ok_iff sm em f)

theorem checkFields_err_aux (sm em : List String) (l : List ZetroField)
    (ih : ∀ f ∈ l, ∀ e, ZetroSchema.checkField sm em f = .error e →
      ∃ nm, e.kind = .invalidReference nm) :
    ∀ e, ZetroSchema.checkFields sm em l = .error e →
      ∃ nm, e.kind = .invalidReference nm := by
  induction l with
  | nil => intro e h; simp [ZetroSchema.checkFields] at h
  | cons f rest ihl =>
    intro e h
    rw [checkFields_cons] at h
    cases hcf : ZetroSchema.checkField sm em f with
    | error e' =>
      rw [hcf] at h
      cases h
      exact ih f (by simp) e hcf
    | ok u =>
      cases u
      rw [hcf] at h
      exact ihl (fun g hg => ih g (by simp [hg])) e h

theorem checkField_err (sm em : List String) (f : ZetroField) :
    ∀ e, ZetroSchema.checkField sm em f = .error e →
      ∃ nm, e.kind = .invalidReference nm := by
  suffices H : ∀ n (f : ZetroField), sizeOf f < n →
      ∀ e, ZetroSchema.checkField sm em f = .error e →
        ∃ nm, e.kind = .invalidReference nm from
    H (sizeOf f + 1) f (by omega)
  intro n
  induction n with
  | zero => intro f h; omega
  | succ n ihn =>
    intro f hf
    cases f with
    | mk d nm k b1 b2 b3 =>
      cases k with
      | structValue sn =>
        intro e h
        simp only [ZetroSchema.checkField, ZetroField.kind] at h
        split at h
        · cases h
        · cases h; exact ⟨sn, rfl⟩
      | enumValue en =>
        intro e h
        simp only [ZetroSchema.checkField, ZetroField.kind] at h
        split at h
        · cases h
        · cases h; exact ⟨en, rfl⟩
      | nestedObject obj =>
        intro e h
        have hobj : ZetroSchema.checkField sm em
            (.mk d nm (.nestedObject obj) b1 b2 b3) =
            ZetroSchema.checkFields sm em obj.fields := by
          simp [ZetroSchema.checkField, ZetroField.kind]
        rw [hobj] at h
        refine checkFields_err_aux sm em obj.fields ?_ e h
        intro g hg
        apply ihn
        have h1 : sizeOf g < sizeOf obj.fields := List.sizeOf_lt_of_mem hg
        cases obj with
        | mk a b c dd fs =>
          simp only [ZetroStruct.fields] at h1
          simp only [ZetroField.mk.sizeOf_spec,
            FieldKind.nestedObject.sizeOf_spec,
            ZetroStruct.mk.sizeOf_spec] at hf ⊢
          omega
      | int8 => intro e h; simp [ZetroSchema.checkField, ZetroField.kind] at h
      | uint8 => intro e h; simp [ZetroSchema.checkField, ZetroField.kind] at h
      | int16 => intro e h; simp [ZetroSchema.checkField, ZetroField.kind] at h
      | uint16 => intro e h; simp [ZetroSchema.checkField, ZetroField.kind] at h
      | int32 => intro e h; simp [ZetroSchema.checkField, ZetroField.kind] at h
      | uint32 => intro e h; simp [ZetroSchema.checkField, ZetroField.kind] at h
      | int64 => intro e h; simp [ZetroSchema.checkField, ZetroField.kind] at h
      | uint64 => intro e h; simp [ZetroSchema.checkField, ZetroField.kind] at h
      | float32 => intro e h; simp [ZetroSchema.checkField, ZetroField.kind] at h
      | float64 => intro e h; simp [ZetroSchema.checkField, ZetroField.kind] at h
      | boolean => intro e h; simp [ZetroSchema.checkField, ZetroField.kind] at h
      | stringValue => intro e h; simp [ZetroSchema.checkField, ZetroField.kind] at h

theorem checkFields_err (sm em : List String) (l : List ZetroField) :
    ∀ e, ZetroSchema.checkFields sm em l = .error e →
      ∃ nm, e.kind = .invalidReference nm :=
  checkFields_err_aux sm em l (fun f _ => checkField_err sm em f)

theorem checkStructList_ok_iff (sm em : List String) (l : List ZetroStruct) :
    ZetroSchema.checkStructList sm em l = .ok () ↔
      ∀ st ∈ l, ∀ r ∈ fieldListRefs st.fields, refResolves sm em r := by
  induction l with
  | nil => simp [ZetroSchema.checkStructList]
  | cons st rest ihl =>
    simp only [ZetroSchema.checkStructList]
    cases hcf : ZetroSchema.checkFields sm em st.fields with
    | error e =>
      constructor
      · intro h; cases h
      · intro h
        exfalso
        have : ZetroSchema.checkFields sm em st.fields = .ok () :=
          (checkFields_ok_iff sm em st.fields).mpr (h st (by simp))
        rw [hcf] at this; cases this
    | ok u =>
      cases u
      rw [ihl]
      constructor
      · intro h g hg
        rcases List.mem_cons.mp hg with hg | hg
        · subst hg; exact (checkFields_ok_iff sm em g.fields).mp hcf
        · exact h g hg
      · intro h g hg
        exact h g (List.mem_cons.mpr (.inr hg))

theorem checkRouteList_ok_iff (sm em : List String) (l : List ZetroRoute) :
    ZetroSchema.checkRouteList sm em l = .ok () ↔
      ∀ rt ∈ l, ∀ r ∈ fieldRefs rt.requestBody ++ fieldRefs rt.responseBody,
        refResolves sm em r := by
  induction l with
  | nil => simp [ZetroSchema.checkRouteList]
  | cons rt rest ihl =>
    simp only [ZetroSchema.checkRouteList]
    cases hreq : ZetroSchema.checkField sm em rt.requestBody with
    | error e =>
      constructor
      · intro h; cases h
      · intro h
        exfalso
        have : ZetroSchema.checkField sm em rt.requestBody = .ok () :=
          (checkField_ok_iff sm em rt.requestBody).mpr
            (fun r hr => h rt (by simp) r (List.mem_append.mpr (.inl hr)))
        rw [hreq] at this; cases this
    | ok u =>
      cases u
      cases hresp : ZetroSchema.checkField sm em rt.responseBody with
      | error e =>
        constructor
        · intro h; cases h
        · intro h
          exfalso
          have : ZetroSchema.checkField sm em rt.responseBody = .ok () :=
            (checkField_ok_iff sm em rt.responseBody).mpr
              (fun r hr => h rt (by simp) r (List.mem_append.mpr (.inr hr)))
          rw [hresp] at this; cases this
      | ok u =>
        cases u
        rw [ihl]
        constructor
        · intro h g hg
          rcases List.mem_cons.mp hg with hg | hg
          · subst hg
            intro r hr
            rcases List.mem_append.mp hr with hr | hr
            · exact (checkField_ok_iff sm em g.requestBody).mp hreq r hr
            · exact (checkField_ok_iff sm em g.responseBody).mp hresp r hr
          · exact h g hg
        · intro h g hg
          exact h g (List.mem_cons.mpr (.inr hg))

theorem checkStructList_err (sm em : List String) (l : List ZetroStruct) :
    ∀ e, ZetroSchema.checkStructList sm em l = .error e →
      ∃ nm, e.kind = .invalidReference nm := by
  induction l with
  | nil => intro e h; simp [ZetroSchema.checkStructList] at h
  | cons st rest ihl =>
    intro e h
    simp only [ZetroSchema.checkStructList] at h
    cases hcf : ZetroSchema.checkFields sm em st.fields with
    | error e' => rw [hcf] at h; cases h; exact checkFields_err sm em st.fields e hcf
    | ok u => cases u; rw [hcf] at h; exact ihl e h

theorem checkRouteList_err (sm em : List String) (l : List ZetroRoute) :
    ∀ e, ZetroSchema.checkRouteList sm em l = .error e →
      ∃ nm, e.kind = .invalidReference nm := by
  induction l with
  | nil => intro e h; simp [ZetroSchema.checkRouteList] at h
  | cons rt rest ihl =>
    intro e h
    simp only [ZetroSchema.checkRouteList] at h
    cases hreq : ZetroSchema.checkField sm em rt.requestBody with
    | error e' =>
      rw [hreq] at h; cases h
      exact checkField_err sm em rt.requestBody e hreq
    | ok u =>
      cases u
      rw [hreq] at h
      cases hresp : ZetroSchema.checkField sm em rt.responseBody with
      | error e' =>
        rw [hresp] at h; cases h
        exact checkField_err sm em rt.responseBody e hresp
      | ok u => cases u; rw [hresp] at h; exact ihl e h

/-- The two name tables `check_schema` builds. -/
def ZetroSchema.structNames (s : ZetroSchema) : List String :=
  s.structs.map ZetroStruct.name

def ZetroSchema.enumNames (s : ZetroSchema) : List String :=
  s.enums.map ZetroEnum.name

theorem checkSchema_ok_iff (s : ZetroSchema) :
    s.checkSchema = .ok () ↔
      ∀ r ∈ s.schemaRefs, refResolves s.structNames s.enumNames r := by
  have hsm : List.map ZetroStruct.name s.structs = s.structNames := rfl
  have hem : List.map ZetroEnum.name s.enums = s.enumNames := rfl
  unfold ZetroSchema.checkSchema ZetroSchema.schemaRefs
  dsimp only
  rw [hsm, hem]
  cases hst : ZetroSchema.checkStructList s.structNames s.enumNames s.structs with
  | error e =>
    constructor
    · intro h; cases h
    · intro h
      exfalso
      have hok : ZetroSchema.checkStructList s.structNames s.enumNames s.structs = .ok () := by
        rw [checkStructList_ok_iff]
        intro st hst' r hr
        refine h r ?_
        simp only [List.mem_append]
        exact .inl (.inl (List.mem_flatMap.mpr ⟨st, hst', hr⟩))
      rw [hst] at hok; cases hok
  | ok u =>
    cases u
    cases hq : ZetroSchema.checkRouteList s.structNames s.enumNames s.queries with
    | error e =>
      constructor
      · intro h; cases h
      · intro h
        exfalso
        have hok : ZetroSchema.checkRouteList s.structNames s.enumNames s.queries = .ok () := by
          rw [checkRouteList_ok_iff]
          intro rt hrt r hr
          refine h r ?_
          simp only [List.mem_append]
          exact .inl (.inr (List.mem_flatMap.mpr ⟨rt, hrt, hr⟩))
        rw [hq] at hok; cases hok
    | ok u =>
      cases u
      constructor
      · intro h r hr
        simp only [List.mem_append] at hr
        rcases hr with (hr | hr) | hr
        · obtain ⟨st, hst', hr⟩ := List.mem_flatMap.mp hr
          exact (checkStructList_ok_iff _ _ _).mp hst st hst' r hr
        · obtain ⟨rt, hrt, hr⟩ := List.mem_flatMap.mp hr
          exact (checkRouteList_ok_iff _ _ _).mp hq rt hrt r hr
        · obtain ⟨rt, hrt, hr⟩ := List.mem_flatMap.mp hr
          exact (checkRouteList_ok_iff _ _ _).mp h rt hrt r hr
      · intro h
        rw [checkRouteList_ok_iff]
        intro rt hrt r hr
        refine h r ?_
        simp only [List.mem_append]
        exact .inr (List.mem_flatMap.mpr ⟨rt, hrt, hr⟩)

theorem checkSchema_err (s : ZetroSchema) :
    ∀ e, s.checkSchema = .error e → ∃ nm, e.kind = .invalidReference nm := by
  have hsm : List.map ZetroStruct.name s.structs = s.structNames := rfl
  have hem : List.map ZetroEnum.name s.enums = s.enumNames := rfl
  intro e h
  unfold ZetroSchema.checkSchema at h
  dsimp only at h
  rw [hsm, hem] at h
  cases hst : ZetroSchema.checkStructList s.structNames s.enumNames s.structs with
  | error e' =>
    rw [hst] at h
    cases h
    exact checkStructList_err _ _ _ e hst
  | ok u =>
    cases u
    rw [hst] at h
    cases hq : ZetroSchema.checkRouteList s.structNames s.enumNames s.queries with
    | error e' =>
      rw [hq] at h; cases h
      exact checkRouteList_err _ _ _ e hq
    | ok u =>
      cases u
      rw [hq] at h
      exact checkRouteList_err _ _ _ e h

/-! ## Route-name tokenisation (`ZetroRoute::encrypt_route_name`, routes.rs)

The Rust code computes `base64::encode_config(hmac_sha1("zetro", name),
URL_SAFE_NO_PAD)` using the `rust-crypto` and `base64` crates.  Both crates
implement public standards (FIPS 180-1 / RFC 2104 / RFC 4648 §5), which we
implement here over byte lists (`Nat` values `< 256`, words `< 2 ^ 32`). -/

/-- UTF-8 encoding of one character (code-point arithmetic). -/
def utf8Bytes (c : Char) : List Nat :=
  let n := c.toNat
  if n < 0x80 then [n]
  else if n < 0x800 then [0xC0 + n / 64, 0x80 + n % 64]
  else if n < 0x10000 then
    [0xE0 + n / 4096, 0x80 + n / 64 % 64, 0x80 + n % 64]
  else
    [0xF0 + n / 262144, 0x80 + n / 4096 % 64, 0x80 + n / 64 % 64,
      0x80 + n % 64]

/-- The UTF-8 bytes of a string (`str::as_bytes`). -/
def strBytes (s : String) : List Nat := s.data.flatMap utf8Bytes

/-- Rotate a 32-bit word left by `n`. -/
def rotl (n x : Nat) : Nat := ((x <<< n) % 2 ^ 32) ||| (x >>> (32 - n))

/-- The SHA-1 round function (FIPS 180-1 §5). -/
def sha1F (t b c d : Nat) : Nat :=
  if t < 20 then (b &&& c) ||| ((b ^^^ 0xFFFFFFFF) &&& d)
  else if t < 40 then b ^^^ c ^^^ d
  else if t < 60 then (b &&& c) ||| (b &&& d) ||| (c &&& d)
  else b ^^^ c ^^^ d

/-- The SHA-1 round constants. -/
def sha1K (t : Nat) : Nat :=
  if t < 20 then 0x5A827999
  else if t < 40 then 0x6ED9EBA1
  else if t < 60 then 0x8F1BBCDC
  else 0xCA62C1D6

/-- Big-endian 32-bit words of a byte list (length a multiple of 4). -/
def bytesToWords : List Nat → List Nat
  | b0 :: b1 :: b2 :: b3 :: rest =>
    ((b0 <<< 24) ||| (b1 <<< 16) ||| (b2 <<< 8) ||| b3) :: bytesToWords rest
  | _ => []

/-- Extend the 16-word message schedule by `k` further words
(`w[t] = rotl1 (w[t-3] ^ w[t-8] ^ w[t-14] ^ w[t-16])`). -/
def sha1Extend : Nat → List Nat → List Nat
  | 0, ws => ws
  | k + 1, ws =>
    let n := ws.length
    sha1Extend k (ws ++ [rotl 1 (ws.getD (n - 3) 0 ^^^ ws.getD (n - 8) 0 ^^^
      ws.getD (n - 14) 0 ^^^ ws.getD (n - 16) 0)])

/-- One SHA-1 block compression. -/
def sha1Compress (h : Nat × Nat × Nat × Nat × Nat) (block : List Nat) :
    Nat × Nat × Nat × Nat × Nat :=
  let ws := sha1Extend 64 (bytesToWords block)
  let final := (List.range 80).foldl
    (fun (st : Nat × Nat × Nat × Nat × Nat) t =>
      let (a, b, c, d, e) := st
      let temp := (rotl 5 a + sha1F t b c d + e + sha1K t + ws.getD t 0) % 2 ^ 32
      (temp, a, rotl 30 b, c, d))
    h
  ((h.1 + final.1) % 2 ^ 32, (h.2.1 + final.2.1) % 2 ^ 32,
    (h.2.2.1 + final.2.2.1) % 2 ^ 32, (h.2.2.2.1 + final.2.2.2.1) % 2 ^ 32,
    (h.2.2.2.2 + final.2.2.2.2) % 2 ^ 32)

/-- SHA-1 padding: `0x80`, zeros to 56 mod 64, then the 64-bit big-endian
bit length. -/
def sha1Pad (msg : List Nat) : List Nat :=
  let bitLen := 8 * msg.length
  let padZeros := (119 - msg.length % 64) % 64
  msg ++ [0x80] ++ List.replicate padZeros 0 ++
    [bitLen >>> 56 % 256, bitLen >>> 48 % 256, bitLen >>> 40 % 256,
      bitLen >>> 32 % 256, bitLen >>> 24 % 256, bitLen >>> 16 % 256,
      bitLen >>> 8 % 256, bitLen % 256]

/-- Split into 64-byte blocks. -/
def chunks64 (l : List Nat) : List (List Nat) :=
  if l.isEmpty then [] else l.take 64 :: chunks64 (l.drop 64)
termination_by l.length
decreasing_by
  rename_i h
  simp only [List.isEmpty_iff] at h
  have : l.length ≠ 0 := fun hl => h (List.length_eq_zero.mp hl)
  simp only [List.length_drop]
  omega

/-- Big-endian bytes of a 32-bit word. -/
def wordBytes (w : Nat) : List Nat :=
  [w >>> 24 % 256, w >>> 16 % 256, w >>> 8 % 256, w % 256]

/-- SHA-1 of a byte list (FIPS 180-1). -/
def sha1 (msg : List Nat) : List Nat :=
  let h := (chunks64 (sha1Pad msg)).foldl sha1Compress
    (0x67452301, 0xEFCDAB89, 0x98BADCFE, 0x10325476, 0xC3D2E1F0)
  wordBytes h.1 ++ wordBytes h.2.1 ++ wordBytes h.2.2.1 ++
    wordBytes h.2.2.2.1 ++ wordBytes h.2.2.2.2

/-- HMAC-SHA1 (RFC 2104); block size 64, `ipad 0x36`, `opad 0x5c`. -/
def hmacSha1 (key msg : List Nat) : List Nat :=
  let k := if 64 < key.length then sha1 key else key
  let k0 := k ++ List.replicate (64 - k.length) 0
  sha1 ((k0.map fun b => b ^^^ 0x5C) ++
    sha1 ((k0.map fun b => b ^^^ 0x36) ++ msg))

/-- The URL-safe base64 alphabet (RFC 4648 §5). -/
def b64Alphabet : List Char :=
  "ABCDEFGHIJKLMNOPQRSTUVWXYZabcdefghijklmnopqrstuvwxyz0123456789-_".data

/-- The alphabet character for a 6-bit group. -/
def sixBitChar (i : Nat) : Char := b64Alphabet.getD i 'A'

/-- URL-safe base64 without padding (RFC 4648 §5, `URL_SAFE_NO_PAD`). -/
def b64UrlNoPad : List Nat → List Char
  | [] => []
  | [b0] => [sixBitChar (b0 >>> 2), sixBitChar ((b0 &&& 3) <<< 4)]
  | [b0, b1] =>
    [sixBitChar (b0 >>> 2), sixBitChar (((b0 &&& 3) <<< 4) ||| (b1 >>> 4)),
      sixBitChar ((b1 &&& 15) <<< 2)]
  | b0 :: b1 :: b2 :: rest =>
    sixBitChar (b0 >>> 2) ::
      sixBitChar (((b0 &&& 3) <<< 4) ||| (b1 >>> 4)) ::
      sixBitChar (((b1 &&& 15) <<< 2) ||| (b2 >>> 6)) ::
      sixBitChar (b2 &&& 63) :: b64UrlNoPad rest

/-- `ZetroRoute::encrypt_route_name` (routes.rs): the wire token of a route
name, i.e. URL-safe unpadded base64 of `HMAC-SHA1(key = "zetro", name)`. -/
def encryptRouteName (name : String) : String :=
  ⟨b64UrlNoPad (hmacSha1 (strBytes "zetro") (strBytes name))⟩

/-! ### Shape facts about the token pipeline -/

theorem sha1_length (msg : List Nat) : (sha1 msg).length = 20 := by
  simp [sha1, wordBytes]

theorem hmacSha1_length (key msg : List Nat) :
    (hmacSha1 key msg).length = 20 := by
  unfold hmacSha1
  exact sha1_length _

theorem b64_length (l : List Nat) :
    (b64UrlNoPad l).length =
      4 * (l.length / 3) +
        (if l.length % 3 = 0 then 0 else l.length % 3 + 1) := by
  induction l using b64UrlNoPad.induct with
  | case1 => simp [b64UrlNoPad]
  | case2 b0 => simp [b64UrlNoPad]
  | case3 b0 b1 => simp [b64UrlNoPad]
  | case4 b0 b1 b2 rest ih =>
    simp only [b64UrlNoPad, List.length_cons, ih]
    have hmod : (rest.length + 1 + 1 + 1) % 3 = rest.length % 3 := by omega
    have hdiv : (rest.length + 1 + 1 + 1) / 3 = rest.length / 3 + 1 := by omega
    rw [hmod, hdiv]
    by_cases h : rest.length % 3 = 0 <;> simp [h] <;> omega

theorem sixBitChar_mem (i : Nat) : sixBitChar i ∈ b64Alphabet := by
  unfold sixBitChar
  rcases h : b64Alphabet[i]? with _ | c
  · simp [List.getD_eq_getElem?_getD, h]
    decide
  · simp [List.getD_eq_getElem?_getD, h]
    obtain ⟨hi, he⟩ := List.getElem?_eq_some.mp h
    exact he ▸ List.getElem_mem hi

theorem b64_chars (l : List Nat) : ∀ c ∈ b64UrlNoPad l, c ∈ b64Alphabet := by
  induction l using b64UrlNoPad.induct with
  | case1 => simp [b64UrlNoPad]
  | case2 b0 =>
    intro c hc
    simp only [b64UrlNoPad, List.mem_cons, List.mem_singleton] at hc
    rcases hc with h | h | h
    · exact h ▸ sixBitChar_mem _
    · exact h ▸ sixBitChar_mem _
    · cases h
  | case3 b0 b1 =>
    intro c hc
    simp only [b64UrlNoPad, List.mem_cons, List.mem_singleton] at hc
    rcases hc with h | h | h | h
    · exact h ▸ sixBitChar_mem _
    · exact h ▸ sixBitChar_mem _
    · exact h ▸ sixBitChar_mem _
    · cases h
  | case4 b0 b1 b2 rest ih =>
    intro c hc
    simp only [b64UrlNoPad, List.mem_cons] at hc
    rcases hc with h | h | h | h | h
    · exact h ▸ sixBitChar_mem _
    · exact h ▸ sixBitChar_mem _
    · exact h ▸ sixBitChar_mem _
    · exact h ▸ sixBitChar_mem _
    · exact ih c h

/-- Every route token is 27 characters long. -/
theorem encryptRouteName_length (name : String) :
    (encryptRouteName name).length = 27 := by
  unfold encryptRouteName
  show (b64UrlNoPad (hmacSha1 (strBytes "zetro") (strBytes name))).length = 27
  rw [b64_length, hmacSha1_length]
  norm_num

/-- Every character of a route token is in the URL-safe base64 alphabet. -/
theorem encryptRouteName_chars (name : String) :
    ∀ c ∈ (encryptRouteName name).data, c ∈ b64Alphabet := by
  unfold encryptRouteName
  exact b64_chars _

/-! ## The emitted server dispatcher (`generate_routing_fn`, warp/mod.rs)

The warp plugin emits one request handler whose text is fixed by
`generate_routing_fn`; we model that emitted handler's behaviour.  Each
route's match arm deserialises the operation body and calls the user
implementation; those two effects are abstracted into one `run` function
per route returning a `HandlerStep`. -/

/-- Outcome of one emitted match arm's body:
`serde_json::from_value` fails, the user implementation returns
`Err(ZetroServerError)`, or it succeeds with a serialised result. -/
inductive HandlerStep where
  | badRequest
  | serverError (code : Int) (message : String)
  | ok (result : Json)

/-- One route of the emitted dispatch table: the route's declared name (its
match arm is labelled with `encryptRouteName name`) and its handler. -/
structure ServerRoute where
  name : String
  run : Json → HandlerStep

/-- The two reply builders `_generate_data_reply` / `_generate_error_reply`:
success serialises `(data, null)`, failure `(null, (code, message))`, both
with HTTP status 200. -/
inductive Reply where
  | data (entries : List Json)
  | error (code : Int) (message : String)

/-- The JSON body each reply builder serialises. -/
def Reply.body : Reply → Json
  | .data entries => .arr [.arr entries, .null]
  | .error code message => .arr [.null, .arr [.num code, .str message]]

/-- `serde_json::from_slice::<(u8, Vec<serde_json::Value>)>`: a two-element
array whose first element is an integer in `0..=255`. -/
def parseEnvelope : Json → Option (Nat × List Json)
  | .arr [.num m, .arr ops] =>
    if 0 ≤ m ∧ m < 256 then some (m.toNat, ops) else none
  | _ => none

/-- The body of the emitted `for op in operations` loop for one operation:
structural checks, then the match over the per-kind dispatch table selected
by `method_code`, then the selected arm. -/
def runOp (queries mutations : List ServerRoute) (methodCode : Nat)
    (op : Json) : Except Reply Json :=
  if !op.isArray then
    .error (.error 400 "Operations must be an array")
  else
    match (op.asArray.getD [])[0]? with
    | none => .error (.error 400 "Route name and route body are mandatory")
    | some routeName =>
      match (op.asArray.getD [])[1]? with
      | none => .error (.error 400 "Route name and route body are mandatory")
      | some routeBody =>
        if !routeName.isString then
          .error (.error 400 "Route name must be string")
        else if methodCode = 1 then
          match queries.find?
              (fun r => encryptRouteName r.name == routeName.asStr.getD "") with
          | none => .error (.error 400 "Unrecognized route name")
          | some r =>
            match r.run routeBody with
            | .badRequest => .error (.error 400 "Bad request")
            | .serverError c msg => .error (.error c msg)
            | .ok d => .ok (.arr [.str (routeName.asStr.getD ""), d])
        else if methodCode = 2 then
          match mutations.find?
              (fun r => encryptRouteName r.name == routeName.asStr.getD "") with
          | none => .error (.error 400 "Unrecognized route name")
          | some r =>
            match r.run routeBody with
            | .badRequest => .error (.error 400 "Bad request")
            | .serverError c msg => .error (.error c msg)
            | .ok d => .ok (.arr [.str (routeName.asStr.getD ""), d])
        else
          .error (.error 400 "Bad request")

/-- The emitted loop: run the operations in envelope order, accumulating
`retval` entries, short-circuiting on the first error reply. -/
def runOps (queries mutations : List ServerRoute) (methodCode : Nat) :
    List Json → Except Reply (List Json)
  | [] => .ok []
  | op :: rest =>
    match runOp queries mutations methodCode op with
    | .error r => .error r
    | .ok entry =>
      match runOps queries mutations methodCode rest with
      | .error r => .error r
      | .ok entries => .ok (entry :: entries)

/-- The emitted request handler: parse the `(u8, Vec<Value>)` envelope
(reject with 400 on failure), run the operations, and reply with
`_generate_data_reply(retval)` if none of them short-circuited. -/
def dispatch (queries mutations : List ServerRoute) (body : Json) : Reply :=
  match parseEnvelope body with
  | none => .error 400 "Bad request"
  | some (methodCode, operations) =>
    match runOps queries mutations methodCode operations with
    | .error r => r
    | .ok retval => .data retval

/-! ## The emitted client response parser expression
(`generate_client_class`, typescript/plugins/class_client/mod.rs)

For each route the client emitter builds the expression that parses
`item[1]` (the per-operation result) inside the stored parser closure.  The
`match` is on the *response* body's kind, but the `.map` decision reads
`route.request_body.is_multiple`. -/

def responseBodyExpr (untaggedRepr : Bool) (route : ZetroRoute) : String :=
  if untaggedRepr then
    match route.responseBody.kind with
    | .structValue structName =>
      if route.requestBody.isMultiple then
        "item[1]" ++ (if route.responseBody.isNullable then "?" else "") ++
          ".map(function (elem: any) \x7b return deserialize" ++ structName ++
          "(elem); \x7d)"
      else
        "deserialize" ++ structName ++ "(item[1])"
    | .nestedObject s =>
      if route.requestBody.isMultiple then
        "item[1]" ++ (if route.responseBody.isNullable then "?" else "") ++
          ".map(function (elem: any) \x7b return deserialize" ++ s.name ++
          "(elem); \x7d)"
      else
        "deserialize" ++ s.name ++ "(item[1])"
    | _ => "item[1]"
  else
    "item[1]"

/-! ## The driver's exit behaviour (`main`, src/main.rs)

`main` runs six fallible stages.  On an argument error, a schema error or a
generation error it prints the message with `eprintln!` and `return`s —
which ends the process with exit status 0.  The file reads/writes and the
JSON decode use `.expect(...)`, which panics — a nonzero exit status. -/

/-- `Display for SchemaError` (errors.rs). -/
def ErrorKind.display : ErrorKind → String
  | .invalidReference n => "Invalid reference '" ++ n ++ "'"
  | .unrecognizedField n => "Unrecognized field '" ++ n ++ "'"
  | .missingField n => "Missing required field '" ++ n ++ "'"
  | .badFieldValue n t =>
    "Invalid value for field '" ++ n ++ "'. Expected type: " ++ t

def Offender.display : Offender → String
  | .field parent n => "Field " ++ parent ++ "." ++ n
  | .struc n => "Struct '" ++ n ++ "'"
  | .enu n => "Enum '" ++ n ++ "'"
  | .route n => "Route '" ++ n ++ "'"
  | .file n => "File '" ++ n ++ "'"

def SchemaError.display (e : SchemaError) : String :=
  e.kind.display ++ "\n" ++ "Offender was: " ++ e.offender.display

/-- How the process ends: a normal return from `main` (exit status 0,
possibly after printing to stderr) or a Rust panic (nonzero exit
status, 101). -/
inductive ProcExit where
  | normal (stderrMsg : Option String)
  | panicked (msg : String)
  deriving Repr, DecidableEq

def ProcExit.code : ProcExit → Nat
  | .normal _ => 0
  | .panicked _ => 101

/-- `main` (src/main.rs) as a function of its six fallible stages:
argument parsing, schema-file read, JSON decode, schema construction,
code generation, and output-file create/write. -/
def mainRun (argsResult : Except String Unit)
    (readResult : Except String String)
    (jsonResult : Except String Json)
    (schemaResult : Except SchemaError ZetroSchema)
    (genResult : Except String String)
    (writeResult : Except String Unit) : ProcExit :=
  match argsResult with
  | .error e => .normal (some e)
  | .ok _ =>
    match readResult with
    | .error _ => .panicked "error reading schema.json"
    | .ok _ =>
      match jsonResult with
      | .error _ => .panicked "error decoding JSON from string"
      | .ok _ =>
        match schemaResult with
        | .error e => .normal (some e.display)
        | .ok _ =>
          match genResult with
          | .error e => .normal (some ("error generating file: " ++ e))
          | .ok _ =>
            match writeResult with
            | .error _ => .panicked "error opening output file"
            | .ok _ => .normal none

/-! ## Concrete inputs used by the claims -/

/-- The struct of the field-ordering scenario: field names
`{"bbb","aac","zzz","abc","aaa","AAA"}` (with a nested object), as in the
repository's `order_alphabetically` test. -/
def c2Example : Json := .obj [
  ("description", .str ""),
  ("fields", .obj [
    ("bbb", .str "[]u32"),
    ("aac", .str "?struct~StructName"),
    ("zzz", .str "?[]enum~EnumName"),
    ("abc", .obj [
      ("description", .str "nested abc struct"),
      ("fields", .obj [("abc", .str "?i64"), ("aaa", .str "string")])]),
    ("aaa", .str "?string"),
    ("AAA", .str "?string")])]

/-- What parsing `c2Example` produces. -/
def c2Parsed : ZetroStruct :=
  .mk "MyStruct" "" false false
    [.mk none "AAA" .stringValue true false false,
     .mk none "aaa" .stringValue true false false,
     .mk none "aac" (.structValue "StructName") true false false,
     .mk none "abc" (.nestedObject (.mk "MyStruct_abc" "nested abc struct"
        false false
        [.mk none "aaa" .stringValue false false false,
         .mk none "abc" .int64 true false false])) false false false,
     .mk none "bbb" .uint32 false true false,
     .mk none "zzz" (.enumValue "EnumName") true true false]

/-- A dispatch table with the single query route `getRooms`, whose handler
always succeeds. -/
def getRoomsRoute : ServerRoute :=
  ⟨"getRooms", fun _ => .ok (.str "roomsResponse")⟩

/-- The request envelope `[1, [[token(getRooms), {}]]]`. -/
def c3Body : Json :=
  .arr [.num 1, .arr [.arr [.str (encryptRouteName "getRooms"), .obj []]]]

/-- A route whose response body is `[]struct~Foo` (multiple) while its
request body is a plain (non-multiple) `struct~Req`. -/
def c9Route : ZetroRoute :=
  ⟨.query, "getThings", "some route",
    .mk none "request" (.structValue "Req") false false false,
    .mk none "response" (.structValue "Foo") false true false⟩

/-- A route whose request body is multiple while its response body is a
plain `struct~Foo`. -/
def c9RouteSwapped : ZetroRoute :=
  ⟨.query, "putThings", "some route",
    .mk none "request" (.structValue "Req") false true false,
    .mk none "response" (.structValue "Foo") false false false⟩

/-! ## Unfolding helpers for the well-founded parser definitions -/

theorem fromValue_str (sn fn s : String) :
    ZetroField.fromValue sn fn (.str s) = parseFieldString sn fn s := by
  simp only [ZetroField.fromValue]

theorem fromValue_field_obj {sn fn : String} {kvs : List (String × Json)}
    {nested : ZetroStruct}
    (h : ZetroStruct.fromValue (generateNestedStructName sn fn) (.obj kvs) =
      .ok nested) :
    ZetroField.fromValue sn fn (.obj kvs) =
      .ok (.mk none fn (.nestedObject nested) nested.isNullable
        nested.isMultiple false) := by
  simp only [ZetroField.fromValue, h]

theorem parseFields_nil (sn : String) : parseFields sn [] = .ok [] := by
  simp [parseFields]

theorem parseFields_cons_ok {sn k : String} {v : Json} {f : ZetroField}
    {rest : List (String × Json)} {fs : List ZetroField}
    (h1 : ZetroField.fromValue sn k v = .ok f)
    (h2 : parseFields sn rest = .ok fs) :
    parseFields sn ((k, v) :: rest) = .ok (f :: fs) := by
  simp [parseFields, h1, h2]

theorem fromValue_struct_ok {sn : String} {kvs : List (String × Json)}
    {hdr : StructHeader} {d : String} {fkvs : List (String × Json)}
    {fs : List ZetroField}
    (hscan : structScan sn .init kvs = .ok hdr)
    (hdesc : hdr.description = some d)
    (hflds : hdr.fields = some fkvs)
    (hpf : parseFields sn (List.insertionSort keyLe fkvs) = .ok fs) :
    ZetroStruct.fromValue sn (.obj kvs) =
      .ok (.mk sn d hdr.nullable hdr.multiple fs) := by
  simp only [ZetroStruct.fromValue]
  split
  · rename_i e heq
    rw [hscan] at heq
    cases heq
  · rename_i hdr' heq
    rw [hscan] at heq
    injection heq with h
    subst h
    split
    · rename_i heq2
      rw [hdesc] at heq2
      cases heq2
    · rename_i d' heq2
      rw [hdesc] at heq2
      injection heq2 with h2
      subst h2
      split
      · rename_i heq3
        rw [hflds] at heq3
        cases heq3
      · rename_i fkvs' heq3
        rw [hflds] at heq3
        injection heq3 with h3
        subst h3
        split
        · rename_i m heq4
          rw [hpf] at heq4
          cases heq4
        · rename_i e heq4
          rw [hpf] at heq4
          cases heq4
        · rename_i fs' heq4
          rw [hpf] at heq4
          injection heq4 with h4
          subst h4
          rfl

/-! ### Evaluating the field-ordering example -/

theorem c2_nested_eval : ZetroStruct.fromValue "MyStruct_abc"
    (.obj [("description", .str "nested abc struct"),
      ("fields", .obj [("abc", .str "?i64"), ("aaa", .str "string")])]) =
    .ok (.mk "MyStruct_abc" "nested abc struct" false false
      [.mk none "aaa" .stringValue false false false,
       .mk none "abc" .int64 true false false]) := by
  have haaa : ZetroField.fromValue "MyStruct_abc" "aaa" (.str "string") =
      .ok (.mk none "aaa" .stringValue false false false) := by
    rw [fromValue_str]
    exact rfl
  have habc : ZetroField.fromValue "MyStruct_abc" "abc" (.str "?i64") =
      .ok (.mk none "abc" .int64 true false false) := by
    rw [fromValue_str]
    exact rfl
  have hpf : parseFields "MyStruct_abc" (List.insertionSort keyLe
      [("abc", Json.str "?i64"), ("aaa", Json.str "string")]) =
      .ok [.mk none "aaa" .stringValue false false false,
        .mk none "abc" .int64 true false false] := by
    rw [show List.insertionSort keyLe
        [("abc", Json.str "?i64"), ("aaa", Json.str "string")] =
        [("aaa", Json.str "string"), ("abc", Json.str "?i64")] from rfl]
    exact parseFields_cons_ok haaa (parseFields_cons_ok habc (parseFields_nil _))
  have hscan : structScan "MyStruct_abc" .init
      [("description", .str "nested abc struct"),
        ("fields", .obj [("abc", .str "?i64"), ("aaa", .str "string")])] =
      .ok ⟨some "nested abc struct", false, false,
        some [("abc", .str "?i64"), ("aaa", .str "string")]⟩ := rfl
  exact fromValue_struct_ok hscan rfl rfl hpf

theorem c2_eval : ZetroStruct.fromValue "MyStruct" c2Example = .ok c2Parsed := by
  have hAAA : ZetroField.fromValue "MyStruct" "AAA" (.str "?string") =
      .ok (.mk none "AAA" .stringValue true false false) := by
    rw [fromValue_str]
    exact rfl
  have haaa : ZetroField.fromValue "MyStruct" "aaa" (.str "?string") =
      .ok (.mk none "aaa" .stringValue true false false) := by
    rw [fromValue_str]
    exact rfl
  have haac : ZetroField.fromValue "MyStruct" "aac" (.str "?struct~StructName") =
      .ok (.mk none "aac" (.structValue "StructName") true false false) := by
    rw [fromValue_str]
    exact rfl
  have hbbb : ZetroField.fromValue "MyStruct" "bbb" (.str "[]u32") =
      .ok (.mk none "bbb" .uint32 false true false) := by
    rw [fromValue_str]
    exact rfl
  have hzzz : ZetroField.fromValue "MyStruct" "zzz" (.str "?[]enum~EnumName") =
      .ok (.mk none "zzz" (.enumValue "EnumName") true true false) := by
    rw [fromValue_str]
    exact rfl
  have habc : ZetroField.fromValue "MyStruct" "abc"
      (.obj [("description", .str "nested abc struct"),
        ("fields", .obj [("abc", .str "?i64"), ("aaa", .str "string")])]) =
      .ok (.mk none "abc" (.nestedObject (.mk "MyStruct_abc"
        "nested abc struct" false false
        [.mk none "aaa" .stringValue false false false,
         .mk none "abc" .int64 true false false])) false false false) := by
    exact fromValue_field_obj c2_nested_eval
  have hpf : parseFields "MyStruct" (List.insertionSort keyLe
      [("bbb", Json.str "[]u32"),
       ("aac", Json.str "?struct~StructName"),
       ("zzz", Json.str "?[]enum~EnumName"),
       ("abc", Json.obj [("description", .str "nested abc struct"),
         ("fields", .obj [("abc", .str "?i64"), ("aaa", .str "string")])]),
       ("aaa", Json.str "?string"),
       ("AAA", Json.str "?string")]) = .ok c2Parsed.fields := by
    rw [show List.insertionSort keyLe
        [("bbb", Json.str "[]u32"),
         ("aac", Json.str "?struct~StructName"),
         ("zzz", Json.str "?[]enum~EnumName"),
         ("abc", Json.obj [("description", .str "nested abc struct"),
           ("fields", .obj [("abc", .str "?i64"), ("aaa", .str "string")])]),
         ("aaa", Json.str "?string"),
         ("AAA", Json.str "?string")] =
        [("AAA", Json.str "?string"),
         ("aaa", Json.str "?string"),
         ("aac", Json.str "?struct~StructName"),
         ("abc", Json.obj [("description", .str "nested abc struct"),
           ("fields", .obj [("abc", .str "?i64"), ("aaa", .str "string")])]),
         ("bbb", Json.str "[]u32"),
         ("zzz", Json.str "?[]enum~EnumName")] from rfl]
    exact parseFields_cons_ok hAAA (parseFields_cons_ok haaa
      (parseFields_cons_ok haac (parseFields_cons_ok habc
        (parseFields_cons_ok hbbb (parseFields_cons_ok hzzz
          (parseFields_nil _))))))
  have hscan : structScan "MyStruct" .init
      [("description", .str ""),
       ("fields", .obj [
         ("bbb", .str "[]u32"),
         ("aac", .str "?struct~StructName"),
         ("zzz", .str "?[]enum~EnumName"),
         ("abc", .obj [("description", .str "nested abc struct"),
           ("fields", .obj [("abc", .str "?i64"), ("aaa", .str "string")])]),
         ("aaa", .str "?string"),
         ("AAA", .str "?string")])] =
      .ok ⟨some "", false, false,
        some [("bbb", .str "[]u32"),
          ("aac", .str "?struct~StructName"),
          ("zzz", .str "?[]enum~EnumName"),
          ("abc", .obj [("description", .str "nested abc struct"),
            ("fields", .obj [("abc", .str "?i64"), ("aaa", .str "string")])]),
          ("aaa", .str "?string"),
          ("AAA", .str "?string")]⟩ := rfl
  show ZetroStruct.fromValue "MyStruct" (.obj
      [("description", .str ""),
       ("fields", .obj [
         ("bbb", .str "[]u32"),
         ("aac", .str "?struct~StructName"),
         ("zzz", .str "?[]enum~EnumName"),
         ("abc", .obj [("description", .str "nested abc struct"),
           ("fields", .obj [("abc", .str "?i64"), ("aaa", .str "string")])]),
         ("aaa", .str "?string"),
         ("AAA", .str "?string")])]) = .ok c2Parsed
  exact fromValue_struct_ok hscan rfl rfl hpf

/-! ### Every parsed field keeps its key as its name -/

theorem parseFieldString_name {sn fn s : String} {f : ZetroField}
    (h : parseFieldString sn fn s = .ok f) : f.name = fn := by
  simp only [parseFieldString] at h
  split at h
  · cases h
  · cases h
  · injection h with h'
    subst h'
    rfl

theorem fromValue_name {sn fn : String} {v : Json} {f : ZetroField}
    (h : ZetroField.fromValue sn fn v = .ok f) : f.name = fn := by
  cases v with
  | obj kvs =>
    simp only [ZetroField.fromValue] at h
    split at h
    · cases h
    · cases h
    · injection h with h'
      subst h'
      rfl
  | str s =>
    rw [fromValue_str] at h
    exact parseFieldString_name h
  | null => simp only [ZetroField.fromValue] at h; cases h
  | bool b => simp only [ZetroField.fromValue] at h; cases h
  | num n => simp only [ZetroField.fromValue] at h; cases h
  | arr xs => simp only [ZetroField.fromValue] at h; cases h

theorem parseFields_names {sn : String} {pairs : List (String × Json)}
    {fs : List ZetroField} (h : parseFields sn pairs = .ok fs) :
    fs.map ZetroField.name = pairs.map Prod.fst := by
  induction pairs generalizing fs with
  | nil =>
    simp only [parseFields] at h
    injection h with h'
    subst h'
    rfl
  | cons kv rest ih =>
    obtain ⟨k, v⟩ := kv
    simp only [parseFields] at h
    split at h
    · cases h
    · cases h
    · rename_i f hf
      split at h
      · cases h
      · cases h
      · rename_i fs' hfs
        injection h with h'
        subst h'
        simp only [List.map_cons]
        rw [fromValue_name hf, ih hfs]

/-- Every successfully parsed struct's fields come out sorted
byte-lexicographically by name. -/
theorem fromValue_struct_sorted {sn : String} {v : Json} {st : ZetroStruct}
    (h : ZetroStruct.fromValue sn v = .ok st) :
    (st.fields.map ZetroField.name).Pairwise (fun a b => strLe a b = true) := by
  cases v with
  | obj kvs =>
    simp only [ZetroStruct.fromValue] at h
    split at h
    · cases h
    · split at h
      · cases h
      · split at h
        · cases h
        · rename_i fkvs hflds
          split at h
          · cases h
          · cases h
          · rename_i fs hpf
            injection h with h'
            subst h'
            rw [ZetroStruct.fields, parseFields_names hpf]
            have hsorted : (List.insertionSort keyLe fkvs).Pairwise keyLe :=
              List.sorted_insertionSort keyLe fkvs
            rw [List.pairwise_map]
            exact hsorted.imp (fun hab => hab)
  | null => simp only [ZetroStruct.fromValue] at h; cases h
  | bool b => simp only [ZetroStruct.fromValue] at h; cases h
  | num n => simp only [ZetroStruct.fromValue] at h; cases h
  | str s => simp only [ZetroStruct.fromValue] at h; cases h
  | arr xs => simp only [ZetroStruct.fromValue] at h; cases h

/-! ### Analysis of the dtype classifier -/

theorem parseDtype_ok {sn fn dt : String} {extra : Option String}
    {nul mul : Bool} {k : FieldKind} {rec : Bool}
    (h : parseDtype sn fn dt extra nul mul = .ok (k, rec)) :
    (∀ n, k = .structValue n → (rec = true ↔ n = sn)) ∧
      (rec = true → ∃ n, k = .structValue n ∧ n = sn) ∧
      (rec = true → nul = true ∨ mul = true) := by
  unfold parseDtype at h
  by_cases hd0 : dt = "string"
  · rw [if_pos hd0] at h
    injection h with hpair
    rw [Prod.mk.injEq] at hpair
    obtain ⟨hk, hr⟩ := hpair
    subst hk
    subst hr
    exact ⟨(fun n hn => nomatch hn), (fun hr => nomatch hr), (fun hr => nomatch hr)⟩
  · rw [if_neg hd0] at h
    by_cases hd1 : dt = "i8"
    · rw [if_pos hd1] at h
      injection h with hpair
      rw [Prod.mk.injEq] at hpair
      obtain ⟨hk, hr⟩ := hpair
      subst hk
      subst hr
      exact ⟨(fun n hn => nomatch hn), (fun hr => nomatch hr), (fun hr => nomatch hr)⟩
    · rw [if_neg hd1] at h
      by_cases hd2 : dt = "u8"
      · rw [if_pos hd2] at h
        injection h with hpair
        rw [Prod.mk.injEq] at hpair
        obtain ⟨hk, hr⟩ := hpair
        subst hk
        subst hr
        exact ⟨(fun n hn => nomatch hn), (fun hr => nomatch hr), (fun hr => nomatch hr)⟩
      · rw [if_neg hd2] at h
        by_cases hd3 : dt = "i16"
        · rw [if_pos hd3] at h
          injection h with hpair
          rw [Prod.mk.injEq] at hpair
          obtain ⟨hk, hr⟩ := hpair
          subst hk
          subst hr
          exact ⟨(fun n hn => nomatch hn), (fun hr => nomatch hr), (fun hr => nomatch hr)⟩
        · rw [if_neg hd3] at h
          by_cases hd4 : dt = "u16"
          · rw [if_pos hd4] at h
            injection h with hpair
            rw [Prod.mk.injEq] at hpair
            obtain ⟨hk, hr⟩ := hpair
            subst hk
            subst hr
            exact ⟨(fun n hn => nomatch hn), (fun hr => nomatch hr), (fun hr => nomatch hr)⟩
          · rw [if_neg hd4] at h
            by_cases hd5 : dt = "i32"
            · rw [if_pos hd5] at h
              injection h with hpair
              rw [Prod.mk.injEq] at hpair
              obtain ⟨hk, hr⟩ := hpair
              subst hk
              subst hr
              exact ⟨(fun n hn => nomatch hn), (fun hr => nomatch hr), (fun hr => nomatch hr)⟩
            · rw [if_neg hd5] at h
              by_cases hd6 : dt = "u32"
              · rw [if_pos hd6] at h
                injection h with hpair
                rw [Prod.mk.injEq] at hpair
                obtain ⟨hk, hr⟩ := hpair
                subst hk
                subst hr
                exact ⟨(fun n hn => nomatch hn), (fun hr => nomatch hr), (fun hr => nomatch hr)⟩
              · rw [if_neg hd6] at h
                by_cases hd7 : dt = "i64"
                · rw [if_pos hd7] at h
                  injection h with hpair
                  rw [Prod.mk.injEq] at hpair
                  obtain ⟨hk, hr⟩ := hpair
                  subst hk
                  subst hr
                  exact ⟨(fun n hn => nomatch hn), (fun hr => nomatch hr), (fun hr => nomatch hr)⟩
                · rw [if_neg hd7] at h
                  by_cases hd8 : dt = "u64"
                  · rw [if_pos hd8] at h
                    injection h with hpair
                    rw [Prod.mk.injEq] at hpair
                    obtain ⟨hk, hr⟩ := hpair
                    subst hk
                    subst hr
                    exact ⟨(fun n hn => nomatch hn), (fun hr => nomatch hr), (fun hr => nomatch hr)⟩
                  · rw [if_neg hd8] at h
                    by_cases hd9 : dt = "f32"
                    · rw [if_pos hd9] at h
                      injection h with hpair
                      rw [Prod.mk.injEq] at hpair
                      obtain ⟨hk, hr⟩ := hpair
                      subst hk
                      subst hr
                      exact ⟨(fun n hn => nomatch hn), (fun hr => nomatch hr), (fun hr => nomatch hr)⟩
                    · rw [if_neg hd9] at h
                      by_cases hd10 : dt = "f64"
                      · rw [if_pos hd10] at h
                        injection h with hpair
                        rw [Prod.mk.injEq] at hpair
                        obtain ⟨hk, hr⟩ := hpair
                        subst hk
                        subst hr
                        exact ⟨(fun n hn => nomatch hn), (fun hr => nomatch hr), (fun hr => nomatch hr)⟩
                      · rw [if_neg hd10] at h
                        by_cases hd11 : dt = "bool"
                        · rw [if_pos hd11] at h
                          injection h with hpair
                          rw [Prod.mk.injEq] at hpair
                          obtain ⟨hk, hr⟩ := hpair
                          subst hk
                          subst hr
                          exact ⟨(fun n hn => nomatch hn), (fun hr => nomatch hr), (fun hr => nomatch hr)⟩
                        · rw [if_neg hd11] at h
                          by_cases hde : dt = "enum"
                          · rw [if_pos hde] at h
                            cases extra with
                            | none => exact nomatch h
                            | some enumName =>
                              injection h with hpair
                              rw [Prod.mk.injEq] at hpair
                              obtain ⟨hk, hr⟩ := hpair
                              subst hk
                              subst hr
                              exact ⟨(fun n hn => nomatch hn), (fun hr => nomatch hr), (fun hr => nomatch hr)⟩
                          · rw [if_neg hde] at h
                            by_cases hds : dt = "struct"
                            · rw [if_pos hds] at h
                              cases extra with
                              | none => exact nomatch h
                              | some refName =>
                                dsimp only at h
                                by_cases hcond : (refName = sn) ∧ ¬(nul = true) ∧ ¬(mul = true)
                                · rw [if_pos hcond] at h
                                  exact nomatch h
                                · rw [if_neg hcond] at h
                                  injection h with hpair
                                  rw [Prod.mk.injEq] at hpair
                                  obtain ⟨hk, hr⟩ := hpair
                                  subst hk
                                  subst hr
                                  refine ⟨?_, ?_, ?_⟩
                                  · intro n hn
                                    injection hn with hrefl
                                    subst hrefl
                                    simp
                                  · intro hrec
                                    exact ⟨refName, rfl, of_decide_eq_true hrec⟩
                                  · intro hrec
                                    have heq : refName = sn := of_decide_eq_true hrec
                                    by_cases hnul : nul = true
                                    · exact .inl hnul
                                    · by_cases hmul : mul = true
                                      · exact .inr hmul
                                      · exact absurd ⟨heq, hnul, hmul⟩ hcond
                            · rw [if_neg hds] at h
                              exact nomatch h

theorem fromValue_recursive_rule {sn fn : String} {v : Json} {f : ZetroField}
    (h : ZetroField.fromValue sn fn v = .ok f) :
    (∀ n, f.kind = .structValue n → (f.isRecursive = true ↔ n = sn)) ∧
      (f.isRecursive = true → ∃ n, f.kind = .structValue n ∧ n = sn) ∧
      (f.isRecursive = true → f.isNullable = true ∨ f.isMultiple = true) := by
  cases v with
  | obj kvs =>
    simp only [ZetroField.fromValue] at h
    split at h
    · cases h
    · cases h
    · injection h with h'
      subst h'
      exact ⟨(fun n hn => nomatch hn), (fun hr => nomatch hr),
        (fun hr => nomatch hr)⟩
  | str s =>
    rw [fromValue_str] at h
    simp only [parseFieldString] at h
    split at h
    · cases h
    · cases h
    · rename_i kind isRec hdt
      injection h with h'
      subst h'
      exact parseDtype_ok hdt
  | null => simp only [ZetroField.fromValue] at h; cases h
  | bool b => simp only [ZetroField.fromValue] at h; cases h
  | num n => simp only [ZetroField.fromValue] at h; cases h
  | arr xs => simp only [ZetroField.fromValue] at h; cases h

/-! ## The claims -/

/-- C1: For every route, the wire token produced for the route name equals
the URL-safe base64 encoding without padding of HMAC-SHA1 with key "zetro"
applied to the name's bytes; the result is always 27 ASCII characters drawn
from the URL-safe base64 alphabet, and the function is deterministic (the
same name always yields the same token). -/
theorem C1_token_hmac_base64 (name : String) :
    encryptRouteName name =
      String.mk (b64UrlNoPad (hmacSha1 (strBytes "zetro") (strBytes name))) ∧
    (encryptRouteName name).length = 27 ∧
    (∀ c ∈ (encryptRouteName name).data, c ∈ b64Alphabet) ∧
    (∀ other : String, name = other →
      encryptRouteName name = encryptRouteName other) :=
  ⟨rfl, encryptRouteName_length name, encryptRouteName_chars name,
    fun _ h => by rw [h]⟩

theorem C1_token_hmac_base64_witness :
    (encryptRouteName "getRooms").length = 27 ∧
    encryptRouteName "getRooms" = encryptRouteName "getRooms" :=
  ⟨(C1_token_hmac_base64 "getRooms").2.1,
    (C1_token_hmac_base64 "getRooms").2.2.2 "getRooms" rfl⟩

/-- C2: Every successfully parsed struct's field list is sorted by
byte-lexicographic order of the field names (uppercase ASCII before
lowercase); in particular the field names
`{"bbb","aac","zzz","abc","aaa","AAA"}` come out in the order
`["AAA","aaa","aac","abc","bbb","zzz"]`. -/
theorem C2_fields_sorted :
    (∀ (structName : String) (v : Json) (st : ZetroStruct),
        ZetroStruct.fromValue structName v = .ok st →
        (st.fields.map ZetroField.name).Pairwise
          (fun a b => strLe a b = true)) ∧
    ZetroStruct.fromValue "MyStruct" c2Example = .ok c2Parsed ∧
    c2Parsed.fields.map ZetroField.name =
      ["AAA", "aaa", "aac", "abc", "bbb", "zzz"] :=
  ⟨fun _ _ _ h => fromValue_struct_sorted h, c2_eval, rfl⟩

theorem C2_fields_sorted_witness :
    (c2Parsed.fields.map ZetroField.name).Pairwise
      (fun a b => strLe a b = true) :=
  C2_fields_sorted.1 "MyStruct" c2Example c2Parsed c2_eval

/-- C5: A struct-kind field is marked recursive exactly when its referent
equals the enclosing struct's name; a recursive field that is neither
nullable nor multiple is rejected with a schema error, while a recursive
field that is nullable or multiple parses successfully — in particular
`"?[]struct~Node"` inside `Node` succeeds and `"struct~Node"` inside `Node`
fails. -/
theorem C5_recursion_rule :
    (∀ (sn fn : String) (v : Json) (f : ZetroField),
        ZetroField.fromValue sn fn v = .ok f →
        (∀ n, f.kind = .structValue n → (f.isRecursive = true ↔ n = sn)) ∧
          (f.isRecursive = true → ∃ n, f.kind = .structValue n ∧ n = sn) ∧
          (f.isRecursive = true →
            f.isNullable = true ∨ f.isMultiple = true)) ∧
    ZetroField.fromValue "Node" "children" (.str "?[]struct~Node") =
      .ok (.mk none "children" (.structValue "Node") true true true) ∧
    ZetroField.fromValue "Node" "next" (.str "struct~Node") =
      .err ⟨.badFieldValue "next"
          "nullable and/or multiple to avoid an infinite loop.",
        .field "Node" "next"⟩ := by
  refine ⟨fun _ _ _ _ h => fromValue_recursive_rule h, ?_, ?_⟩
  · rw [fromValue_str]
    exact rfl
  · rw [fromValue_str]
    exact rfl

theorem C5_recursion_rule_witness :
    Json.isObject (.str "?[]struct~Node") = false ∧
    ((ZetroField.mk none "children" (.structValue "Node") true true
        true).isRecursive = true →
      (ZetroField.mk none "children" (.structValue "Node") true true
          true).isNullable = true ∨
        (ZetroField.mk none "children" (.structValue "Node") true true
            true).isMultiple = true) :=
  ⟨rfl, (C5_recursion_rule.1 "Node" "children" (.str "?[]struct~Node") _
    C5_recursion_rule.2.1).2.2⟩

/-- C7: The code's behaviour at a `"enum"` or `"struct"` field string with
no `~name` part: `ZetroField::from_value` panics via `Option::expect`
(aborting the process) instead of returning a `SchemaError`. -/
theorem C7_missing_name_panics :
    ZetroField.fromValue "S" "color" (.str "enum") =
      .panic "enum declarations must contain enum name" ∧
    ZetroField.fromValue "S" "owner" (.str "struct") =
      .panic "struct declarations must contain struct name" := by
  constructor
  · rw [fromValue_str]
    exact rfl
  · rw [fromValue_str]
    exact rfl

/-- C10: For every field whose JSON value is neither an object nor a
string, `ZetroField::from_value` hits the `todo!()` branch and panics
instead of returning a `SchemaError`. -/
theorem C10_non_string_non_object_panics (sn fn : String) (v : Json)
    (h1 : v.isObject = false) (h2 : v.isString = false) :
    ZetroField.fromValue sn fn v = .panic "not yet implemented" := by
  cases v with
  | obj kvs => simp [Json.isObject] at h1
  | str s => simp [Json.isString] at h2
  | null => simp only [ZetroField.fromValue]
  | bool b => simp only [ZetroField.fromValue]
  | num n => simp only [ZetroField.fromValue]
  | arr xs => simp only [ZetroField.fromValue]

theorem C10_non_string_non_object_panics_witness :
    Json.isObject (.num 5) = false ∧ Json.isString (.num 5) = false ∧
    ZetroField.fromValue "S" "f" (.num 5) = .panic "not yet implemented" :=
  ⟨rfl, rfl, C10_non_string_non_object_panics "S" "f" (.num 5) rfl rfl⟩

/-- C6: Schema validation visits every field of every top-level struct,
every field of every nested anonymous object, and the request and response
fields of every query and mutation; it returns an `InvalidReference` error
exactly when some visited struct-kind or enum-kind reference names no
declared struct resp. enum (the two name tables being separate). -/
theorem C6_check_schema_references (s : ZetroSchema) :
    (s.checkSchema = .ok () ↔
      ∀ r ∈ s.schemaRefs, refResolves s.structNames s.enumNames r) ∧
    (∀ e, s.checkSchema = .error e → ∃ nm, e.kind = .invalidReference nm) :=
  ⟨checkSchema_ok_iff s, checkSchema_err s⟩

theorem C6_check_schema_references_witness :
    ZetroSchema.checkSchema
      ⟨[.mk "S" "d" false false
          [.mk none "c" (.enumValue "Color") false false false]],
        [⟨"Color", ["Red", "Green"]⟩], [], []⟩ = .ok () :=
  (C6_check_schema_references _).1.mpr (by
    intro r hr
    simp only [ZetroSchema.schemaRefs, List.flatMap_cons, List.flatMap_nil,
      List.append_nil, List.nil_append, List.append_assoc] at hr
    simp only [fieldListRefs, fieldRefs, ZetroStruct.fields,
      ZetroField.kind] at hr
    simp only [List.append_nil, List.mem_singleton] at hr
    subst hr
    simp [refResolves, ZetroSchema.enumNames, ZetroEnum.name])

/-- C8: The code's exit behaviour at each error class: an argument error
and a schema error print a human-readable message to stderr but `main`
returns normally, so the process exits with status 0; only the file-system
stages panic, giving a nonzero exit status. -/
theorem C8_error_exit_codes :
    mainRun (.error "Unrecognized option: '--bogus'") (.ok "") (.ok .null)
        (.ok ⟨[], [], [], []⟩) (.ok "") (.ok ()) =
      .normal (some "Unrecognized option: '--bogus'") ∧
    (mainRun (.error "Unrecognized option: '--bogus'") (.ok "") (.ok .null)
        (.ok ⟨[], [], [], []⟩) (.ok "") (.ok ())).code = 0 ∧
    (mainRun (.ok ()) (.ok "{}") (.ok (.obj []))
        (.error ⟨.invalidReference "Missing", .field "Missing" "f"⟩)
        (.ok "") (.ok ())).code = 0 ∧
    (mainRun (.ok ()) (.error "No such file or directory") (.ok .null)
        (.ok ⟨[], [], [], []⟩) (.ok "") (.ok ())).code = 101 :=
  ⟨rfl, rfl, rfl, rfl⟩

/-- C9: The code's behaviour for an untagged client response parser: the
`.map` (element-wise) decision reads the *request* body's `multiple` flag,
not the response body's — a route with a multiple response but single
request gets the deserializer applied directly, and a route with a single
response but multiple request gets it mapped element-wise. -/
theorem C9_response_parser_uses_request_multiple :
    c9Route.responseBody.isMultiple = true ∧
    c9Route.requestBody.isMultiple = false ∧
    responseBodyExpr true c9Route = "deserializeFoo(item[1])" ∧
    c9RouteSwapped.responseBody.isMultiple = false ∧
    c9RouteSwapped.requestBody.isMultiple = true ∧
    responseBodyExpr true c9RouteSwapped =
      "item[1].map(function (elem: any) \x7b return deserializeFoo(elem); \x7d)" :=
  ⟨rfl, rfl, rfl, rfl, rfl, rfl⟩

/-! ### Dispatcher lemmas -/

theorem runOp_ok_shape {queries mutations : List ServerRoute} {mc : Nat}
    {op entry : Json} (h : runOp queries mutations mc op = .ok entry) :
    ∃ rn d, (op.asArray.getD [])[0]? = some (.str rn) ∧
      entry = .arr [.str rn, d] := by
  unfold runOp at h
  split at h
  · cases h
  · split at h
    · cases h
    · rename_i routeName heq1
      split at h
      · cases h
      · rename_i routeBody heq2
        split at h
        · cases h
        · rename_i hstr
          have hs : ∃ s, routeName = .str s := by
            cases routeName <;> simp_all [Json.isString]
          obtain ⟨s, rfl⟩ := hs
          split at h
          · split at h
            · cases h
            · split at h
              · cases h
              · cases h
              · rename_i d hrun
                injection h with h'
                subst h'
                exact ⟨s, d, heq1, rfl⟩
          · split at h
            · split at h
              · cases h
              · split at h
                · cases h
                · cases h
                · rename_i d hrun
                  injection h with h'
                  subst h'
                  exact ⟨s, d, heq1, rfl⟩
            · cases h

theorem runOps_ok_forall₂ {queries mutations : List ServerRoute} {mc : Nat} :
    ∀ {ops entries : List Json},
      runOps queries mutations mc ops = .ok entries →
      List.Forall₂ (fun op entry => ∃ rn d,
        (op.asArray.getD [])[0]? = some (.str rn) ∧
        entry = .arr [.str rn, d]) ops entries := by
  intro ops
  induction ops with
  | nil =>
    intro entries h
    simp only [runOps] at h
    injection h with h'
    subst h'
    exact .nil
  | cons op rest ih =>
    intro entries h
    simp only [runOps] at h
    split at h
    · cases h
    · rename_i entry hop
      split at h
      · cases h
      · rename_i entries' hrest
        injection h with h'
        subst h'
        exact .cons (runOp_ok_shape hop) (ih hrest)

theorem runOp_bad_method (queries mutations : List ServerRoute)
    (op : Json) {mc : Nat} (h1 : mc ≠ 1) (h2 : mc ≠ 2) :
    ∃ msg, runOp queries mutations mc op = .error (.error 400 msg) := by
  unfold runOp
  split
  · exact ⟨"Operations must be an array", rfl⟩
  · split
    · exact ⟨"Route name and route body are mandatory", rfl⟩
    · split
      · exact ⟨"Route name and route body are mandatory", rfl⟩
      · split
        · exact ⟨"Route name must be string", rfl⟩
        · exact ⟨"Bad request", rfl⟩

theorem c3_runOp_eval :
    runOp [getRoomsRoute] [] 1
        (.arr [.str (encryptRouteName "getRooms"), .obj []]) =
      .ok (.arr [.str (encryptRouteName "getRooms"), .str "roomsResponse"]) := by
  unfold runOp
  simp only [Json.isArray, Bool.not_true, Json.asArray, Option.getD,
    List.getElem?_cons_zero, List.getElem?_cons_succ, Json.isString,
    Json.asStr, List.find?, getRoomsRoute, beq_self_eq_true]
  rfl

/-- C3 as written is false: the per-operation entry the emitted dispatcher
pushes is `[route_name_as_received, result]`, and the received route name is
the HMAC token, not the declared plain name `"getRooms"`. -/
theorem C3_counterexample :
    dispatch [getRoomsRoute] [] c3Body =
      .data [.arr [.str (encryptRouteName "getRooms"),
        .str "roomsResponse"]] ∧
    encryptRouteName "getRooms" ≠ "getRooms" := by
  constructor
  · have henv : parseEnvelope c3Body =
        some (1, [.arr [.str (encryptRouteName "getRooms"), .obj []]]) := by
      simp [c3Body, parseEnvelope]
    have hops : runOps [getRoomsRoute] [] 1
        [.arr [.str (encryptRouteName "getRooms"), .obj []]] =
        .ok [.arr [.str (encryptRouteName "getRooms"),
          .str "roomsResponse"]] := by
      simp only [runOps, c3_runOp_eval]
    simp only [dispatch, henv, hops]
  · intro hEq
    have h27 := encryptRouteName_length "getRooms"
    rw [hEq] at h27
    exact absurd h27 (by decide)

/-- C3 amended: for every envelope the dispatcher accepts whose operations
all succeed, the response is `[data, null]` where `data` lists, in request
order, one entry `[route_name, result]` per operation — `route_name` being
the operation's route-name string exactly as received (the token), not the
route's declared plain name. -/
theorem C3_amended (queries mutations : List ServerRoute) (body : Json)
    (mc : Nat) (ops entries : List Json)
    (henv : parseEnvelope body = some (mc, ops))
    (hops : runOps queries mutations mc ops = .ok entries) :
    dispatch queries mutations body = .data entries ∧
    Reply.body (.data entries) = .arr [.arr entries, .null] ∧
    List.Forall₂ (fun op entry => ∃ rn d,
      (op.asArray.getD [])[0]? = some (.str rn) ∧
      entry = .arr [.str rn, d]) ops entries := by
  refine ⟨?_, rfl, runOps_ok_forall₂ hops⟩
  simp only [dispatch, henv, hops]

theorem C3_amended_witness :
    dispatch [getRoomsRoute] [] c3Body =
      .data [.arr [.str (encryptRouteName "getRooms"),
        .str "roomsResponse"]] :=
  (C3_amended [getRoomsRoute] [] c3Body 1
    [.arr [.str (encryptRouteName "getRooms"), .obj []]]
    [.arr [.str (encryptRouteName "getRooms"), .str "roomsResponse"]]
    (by simp [c3Body, parseEnvelope])
    (by simp only [runOps, c3_runOp_eval])).1

/-- C4 as written is false: with an empty operations list the emitted
dispatcher never reaches the method-code check (it sits inside the
per-operation loop), so method code 3 with no operations yields the success
envelope `[[], null]`, not a 400 error. -/
theorem C4_counterexample :
    dispatch [] [] (.arr [.num 3, .arr []]) = .data [] ∧
    ¬∃ msg, dispatch [] [] (.arr [.num 3, .arr []]) =
      .error 400 msg := by
  refine ⟨rfl, ?_⟩
  rintro ⟨msg, h⟩
  rw [show dispatch [] [] (.arr [.num 3, .arr []]) = .data [] from rfl] at h
  cases h

/-- C4 amended: for an accepted envelope whose method code is neither 1 nor
2, the dispatcher replies with an error envelope carrying code 400 whenever
the operations list is nonempty; with an empty operations list it instead
replies with the success envelope `[[], null]`. -/
theorem C4_amended (queries mutations : List ServerRoute) (body : Json)
    (mc : Nat) (ops : List Json)
    (henv : parseEnvelope body = some (mc, ops))
    (h1 : mc ≠ 1) (h2 : mc ≠ 2) :
    (ops = [] → dispatch queries mutations body = .data []) ∧
    (∀ op rest, ops = op :: rest →
      ∃ msg, dispatch queries mutations body = .error 400 msg) := by
  constructor
  · rintro rfl
    simp only [dispatch, henv, runOps]
  · rintro op rest rfl
    obtain ⟨msg, hop⟩ := runOp_bad_method queries mutations op h1 h2
    refine ⟨msg, ?_⟩
    simp only [dispatch, henv, runOps, hop]

theorem C4_amended_witness :
    dispatch [] [] (.arr [.num 3, .arr []]) = .data [] ∧
    ∃ msg, dispatch [] [] (.arr [.num 3, .arr [.arr [.str "x", .null]]]) =
      .error 400 msg :=
  ⟨(C4_amended [] [] (.arr [.num 3, .arr []]) 3 [] rfl
      (by decide) (by decide)).1 rfl,
    (C4_amended [] [] (.arr [.num 3, .arr [.arr [.str "x", .null]]]) 3
      [.arr [.str "x", .null]] rfl (by decide) (by decide)).2
      (.arr [.str "x", .null]) [] rfl⟩
